import Mathlib

/-!
Verification development for the invoice-ingestion core of the repository:
the attachment selector in scripts/e2e_from_gmail_latest.py and the
normalization / validation / upload-adapter logic in src/gmail_invoices.py.

Strings are modelled as `List Char` (ASCII; Python `str` operations are
modelled on ASCII data, which is what the program manipulates).  Bytes are
modelled as `List Nat` with values below 256.  Loosely-shaped Python values
(JSON bodies, dict fields) are modelled by the inductive `PyVal`, with
Python truthiness as `truthy`.  Fallible Python code is modelled with
`Except`/`Option`: an `Except.error` value corresponds to a raised
exception.
-/

/-- Shorthand turning a Lean string literal into the `List Char` model. -/
def S (s : String) : List Char := s.data

/-- Python whitespace (the ASCII characters matched by `str.split`,
`str.strip` and the regex class backslash-s): space, tab, newline,
carriage return, vertical tab, form feed. -/
def pyIsSpace (c : Char) : Bool :=
  c.toNat = 32 || c.toNat = 9 || c.toNat = 10 || c.toNat = 13 ||
  c.toNat = 11 || c.toNat = 12

/-- ASCII lower-casing of one character, as performed by `str.lower` and by
case-insensitive regex matching on ASCII input (written as an explicit
table so that it computes by `rfl`/`decide` and needs no `Char.ofNat`
validity reasoning). -/
def pyLower (c : Char) : Char :=
  match c with
  | 'A' => 'a' | 'B' => 'b' | 'C' => 'c' | 'D' => 'd' | 'E' => 'e'
  | 'F' => 'f' | 'G' => 'g' | 'H' => 'h' | 'I' => 'i' | 'J' => 'j'
  | 'K' => 'k' | 'L' => 'l' | 'M' => 'm' | 'N' => 'n' | 'O' => 'o'
  | 'P' => 'p' | 'Q' => 'q' | 'R' => 'r' | 'S' => 's' | 'T' => 't'
  | 'U' => 'u' | 'V' => 'v' | 'W' => 'w' | 'X' => 'x' | 'Y' => 'y'
  | 'Z' => 'z'
  | _ => c

/-- Word characters for the regex word-boundary class (ASCII part of
Python backslash-w): letters, digits, underscore. -/
def isWordChar (c : Char) : Bool :=
  (65 ≤ c.toNat && c.toNat ≤ 90) || (97 ≤ c.toNat && c.toNat ≤ 122) ||
  (48 ≤ c.toNat && c.toNat ≤ 57) || c.toNat = 95

/-! ## Regex search primitives

The four patterns of `choose_invoice_attachment` are ASCII literals
combined with the regex constructs backslash-s-star, word boundaries,
anchors and alternation, searched with `re.search` under `re.I`.  They are
modelled by executable searchers over `List Char`.  `searchWB f prev l`
tries the position-local matcher `f` at every position of `l` (including
the end-of-string position, as `re.search` does), threading the character
preceding the current position (`none` at the start of the string) so that
word boundaries and the `Caret` anchor can be decided. -/

/-- Case-insensitively match the literal `pat` (given lower-case) at the
head of `l`, returning the remainder of `l` on success. -/
def matchLitCI (pat : List Char) (l : List Char) : Option (List Char) :=
  match pat, l with
  | [], rest => some rest
  | _ :: _, [] => none
  | p :: ps, c :: cs => if pyLower c = p then matchLitCI ps cs else none

/-- Try a position-local matcher at every position of the string
(the matcher receives the preceding character, if any). -/
def searchWB (f : Option Char → List Char → Bool) :
    Option Char → List Char → Bool
  | prev, [] => f prev []
  | prev, c :: rest => f prev (c :: rest) || searchWB f (some c) rest

/-- A word boundary holds on the left of a position whose next character is
a word character iff the previous character is absent or not a word
character. -/
def noWordBefore : Option Char → Bool
  | Option.none => true
  | some c => !isWordChar c

/-- A word boundary holds on the right of a word character iff the string
ends there or the next character is not a word character. -/
def noWordAfter : List Char → Bool
  | [] => true
  | c :: _ => !isWordChar c

/-- Position-local match for `commercial` backslash-s-star `invoice`
(pattern 1 of the selector).  The whitespace run between the two literals
is maximal without loss of generality because `invoice` starts with a
non-whitespace character. -/
def commercialInvoiceAt (_prev : Option Char) (l : List Char) : Bool :=
  match matchLitCI (S "commercial") l with
  | Option.none => false
  | some rest =>
    match matchLitCI (S "invoice") (rest.dropWhile pyIsSpace) with
    | Option.none => false
    | some _ => true

/-- Position-local match for word-bounded `invoice` (pattern 2). -/
def wordInvoiceAt (prev : Option Char) (l : List Char) : Bool :=
  noWordBefore prev &&
    (match matchLitCI (S "invoice") l with
     | Option.none => false
     | some rest => noWordAfter rest)

/-- Position-local match for `proforma` backslash-s-star `invoice`
(first alternative of pattern 3; no word boundary in the source). -/
def proformaInvoiceAt (_prev : Option Char) (l : List Char) : Bool :=
  match matchLitCI (S "proforma") l with
  | Option.none => false
  | some rest =>
    match matchLitCI (S "invoice") (rest.dropWhile pyIsSpace) with
    | Option.none => false
    | some _ => true

/-- Position-local match for word-bounded `proforma`
(second alternative of pattern 3). -/
def wordProformaAt (prev : Option Char) (l : List Char) : Bool :=
  noWordBefore prev &&
    (match matchLitCI (S "proforma") l with
     | Option.none => false
     | some rest => noWordAfter rest)

/-- Position-local match for anchored `pi` (first alternative of
pattern 4: `Caret pi` followed by a word boundary; the anchor means the
position has no preceding character). -/
def anchoredPiAt (prev : Option Char) (l : List Char) : Bool :=
  (match prev with | Option.none => true | some _ => false) &&
    (match matchLitCI (S "pi") l with
     | Option.none => false
     | some rest => noWordAfter rest)

/-- Position-local match for word-bounded `pi`
(second alternative of pattern 4). -/
def wordPiAt (prev : Option Char) (l : List Char) : Bool :=
  noWordBefore prev &&
    (match matchLitCI (S "pi") l with
     | Option.none => false
     | some rest => noWordAfter rest)

/-- Pattern 1 of the selector: `re.search` of case-insensitive
`commercial` backslash-s-star `invoice`. -/
def pat1 (l : List Char) : Bool := searchWB commercialInvoiceAt Option.none l

/-- Pattern 2: `re.search` of case-insensitive word-bounded `invoice`. -/
def pat2 (l : List Char) : Bool := searchWB wordInvoiceAt Option.none l

/-- Pattern 3: `re.search` of case-insensitive
`proforma` backslash-s-star `invoice`, or word-bounded `proforma`. -/
def pat3 (l : List Char) : Bool :=
  searchWB (fun prev s => proformaInvoiceAt prev s || wordProformaAt prev s)
    Option.none l

/-- Pattern 4: `re.search` of case-insensitive anchored `pi` with a right
word boundary, or word-bounded `pi`. -/
def pat4 (l : List Char) : Bool :=
  searchWB (fun prev s => anchoredPiAt prev s || wordPiAt prev s)
    Option.none l

/-! ## The selector `choose_invoice_attachment`
(scripts/e2e_from_gmail_latest.py)

A candidate is a dict; the selector only reads its `filename` and `title`
keys, both expected to hold strings when present (absent keys read as
`None`).  `fnOf` models `a.get("filename") or a.get("title") or ""`
including Python truthiness (an empty string falls through to the next
alternative). -/

structure Cand where
  filename : Option (List Char)
  title : Option (List Char)
deriving DecidableEq

/-- The filename string the selector matches patterns against. -/
def fnOf (a : Cand) : List Char :=
  match a.filename with
  | some s => if s ≠ [] then s else (match a.title with
      | some t => if t ≠ [] then t else []
      | Option.none => [])
  | Option.none => match a.title with
      | some t => if t ≠ [] then t else []
      | Option.none => []

/-- The inner loop `for i, a in enumerate(atts, start=1): if pat.search(fn):
return (i, a)` for one pattern. -/
def findMatchAux (pred : Cand → Bool) : List Cand → Nat → Option (Nat × Cand)
  | [], _ => Option.none
  | a :: rest, i => if pred a then some (i, a) else findMatchAux pred rest (i + 1)

/-- The outer loop over the pattern list. -/
def chooseLoop : List (List Char → Bool) → List Cand → Option (Nat × Cand)
  | [], _ => Option.none
  | p :: ps, atts =>
    match findMatchAux (fun a => p (fnOf a)) atts 1 with
    | some r => some r
    | Option.none => chooseLoop ps atts

/-- The four patterns in the priority order of the source. -/
def selectorPatterns : List (List Char → Bool) := [pat1, pat2, pat3, pat4]

/-- Model of `choose_invoice_attachment` from scripts/e2e_from_gmail_latest.py:
try the four patterns in priority order, scanning candidates in input
order and returning the first match with its 1-based index; with no match,
fall back to the first candidate, and return `None` for an empty input. -/
def choose_invoice_attachment (atts : List Cand) : Option (Nat × Cand) :=
  match chooseLoop selectorPatterns atts with
  | some r => some r
  | Option.none =>
    match atts with
    | [] => Option.none
    | a :: _ => some (1, a)

/-! ## Generic facts about the selector loops -/

/-- If the candidate at (0-based) position `j` satisfies `pred` and no
earlier candidate does, the inner loop started at counter `i` returns
`(i + j, a)`. -/
theorem findMatchAux_first (pred : Cand → Bool) :
    ∀ (atts : List Cand) (i j : Nat) (a : Cand),
      atts[j]? = some a → pred a = true →
      ((atts.take j).all fun b => !pred b) = true →
      findMatchAux pred atts i = some (i + j, a) := by
  intro atts
  induction atts with
  | nil => intro i j a hj; simp at hj
  | cons c rest ih =>
    intro i j a hj hp hall
    cases j with
    | zero =>
      simp at hj
      subst hj
      simp [findMatchAux, hp]
    | succ j =>
      simp [List.take_succ_cons, List.all_cons] at hall
      simp at hj
      have := ih (i + 1) j a hj hp (by
        simpa using hall.2)
      simp [findMatchAux, hall.1, this]
      omega

/-- If no candidate satisfies `pred`, the inner loop returns nothing. -/
theorem findMatchAux_none (pred : Cand → Bool) :
    ∀ (atts : List Cand) (i : Nat),
      (atts.all fun b => !pred b) = true →
      findMatchAux pred atts i = Option.none := by
  intro atts
  induction atts with
  | nil => intro i _; rfl
  | cons c rest ih =>
    intro i hall
    simp [List.all_cons] at hall
    simp [findMatchAux, hall.1, ih _ (by simpa using hall.2)]

/-- Any result of the inner loop is in range and returns the element at
its reported position. -/
theorem findMatchAux_sound (pred : Cand → Bool) :
    ∀ (atts : List Cand) (i k : Nat) (a : Cand),
      findMatchAux pred atts i = some (k, a) →
      i ≤ k ∧ k < i + atts.length ∧ atts[k - i]? = some a := by
  intro atts
  induction atts with
  | nil => intro i k a h; simp [findMatchAux] at h
  | cons c rest ih =>
    intro i k a h
    simp only [findMatchAux] at h
    by_cases hp : pred c
    · simp [hp] at h
      obtain ⟨hk, ha⟩ := h
      subst hk; subst ha
      simp
    · simp [hp] at h
      obtain ⟨h1, h2, h3⟩ := ih (i + 1) k a h
      refine ⟨by omega, by simp; omega, ?_⟩
      have hki : k - i = (k - (i + 1)) + 1 := by omega
      rw [hki]
      simpa using h3

/-- Any result of the pattern loop is in range and returns the element at
its reported position. -/
theorem chooseLoop_sound :
    ∀ (ps : List (List Char → Bool)) (atts : List Cand) (k : Nat) (a : Cand),
      chooseLoop ps atts = some (k, a) →
      1 ≤ k ∧ k ≤ atts.length ∧ atts[k - 1]? = some a := by
  intro ps
  induction ps with
  | nil => intro atts k a h; simp [chooseLoop] at h
  | cons p ps ih =>
    intro atts k a h
    simp only [chooseLoop] at h
    cases hfm : findMatchAux (fun a => p (fnOf a)) atts 1 with
    | none => rw [hfm] at h; exact ih atts k a h
    | some r =>
      obtain ⟨k', a'⟩ := r
      rw [hfm] at h
      simp at h
      obtain ⟨hk, ha⟩ := h
      subst hk; subst ha
      obtain ⟨h1, h2, h3⟩ := findMatchAux_sound _ atts 1 _ _ hfm
      exact ⟨h1, by omega, h3⟩

/-- The pattern loop returns nothing on an empty candidate list. -/
theorem chooseLoop_nil : ∀ ps : List (List Char → Bool), chooseLoop ps [] = Option.none := by
  intro ps
  induction ps with
  | nil => rfl
  | cons p ps ih => simp [chooseLoop, findMatchAux, ih]

/-- CLAIM C1.  If some candidate filename-or-title matches the
`commercial invoice` pattern (pattern 1), the selector returns the
1-based position and the candidate of the first such match — regardless of
lower-priority matches elsewhere and of the match not being first in the
list.  `j` is the 0-based position of the first pattern-1 match. -/
theorem choose_invoice_attachment_commercial_first
    (atts : List Cand) (j : Nat) (a : Cand)
    (hj : atts[j]? = some a)
    (hmatch : pat1 (fnOf a) = true)
    (hfirst : ((atts.take j).all fun b => !pat1 (fnOf b)) = true) :
    choose_invoice_attachment atts = some (j + 1, a) := by
  have h1 : findMatchAux (fun b => pat1 (fnOf b)) atts 1 = some (1 + j, a) :=
    findMatchAux_first _ atts 1 j a hj hmatch hfirst
  simp [choose_invoice_attachment, chooseLoop, selectorPatterns, h1, Nat.add_comm 1 j]

/-- Witness for C1: in a two-candidate list whose second candidate is the
only `commercial invoice` match, the selector picks position 2. -/
theorem choose_invoice_attachment_commercial_first_witness :
    choose_invoice_attachment
      [⟨some (S "photo.png"), Option.none⟩,
       ⟨some (S "Commercial Invoice.pdf"), Option.none⟩] =
    some (2, ⟨some (S "Commercial Invoice.pdf"), Option.none⟩) :=
  choose_invoice_attachment_commercial_first
    [⟨some (S "photo.png"), Option.none⟩,
     ⟨some (S "Commercial Invoice.pdf"), Option.none⟩]
    1 ⟨some (S "Commercial Invoice.pdf"), Option.none⟩
    (by decide) (by decide) (by decide)

/-- CLAIM C5.  If no pattern matches any candidate, the selector returns
position 1 with the first element for a non-empty list, and `None` for the
empty list. -/
theorem choose_invoice_attachment_fallback
    (atts : List Cand)
    (hnone : (atts.all fun b =>
      !pat1 (fnOf b) && !pat2 (fnOf b) && !pat3 (fnOf b) && !pat4 (fnOf b)) = true) :
    choose_invoice_attachment atts =
      match atts with
      | [] => Option.none
      | a :: _ => some (1, a) := by
  have hall : ∀ p ∈ selectorPatterns,
      (atts.all fun b => !p (fnOf b)) = true := by
    intro p hp
    simp [List.all_eq_true] at hnone ⊢
    intro b hb
    obtain ⟨⟨⟨e1, e2⟩, e3⟩, e4⟩ := hnone b hb
    simp [selectorPatterns] at hp
    rcases hp with h | h | h | h <;> subst h <;> simp [e1, e2, e3, e4]
  have hloop : chooseLoop selectorPatterns atts = Option.none := by
    have : ∀ ps : List (List Char → Bool),
        (∀ p ∈ ps, (atts.all fun b => !p (fnOf b)) = true) →
        chooseLoop ps atts = Option.none := by
      intro ps
      induction ps with
      | nil => intro _; rfl
      | cons p ps ih =>
        intro h
        have h1 := h p (by simp)
        simp [chooseLoop, findMatchAux_none _ atts 1 h1]
        exact ih fun q hq => h q (by simp [hq])
    exact this selectorPatterns hall
  cases atts with
  | nil => simp [choose_invoice_attachment, chooseLoop_nil]
  | cons c rest => simp [choose_invoice_attachment, hloop]

/-- Witness for C5: a single candidate matching no pattern is returned as
the fallback at position 1. -/
theorem choose_invoice_attachment_fallback_witness :
    choose_invoice_attachment [⟨some (S "photo.png"), Option.none⟩] =
      some (1, ⟨some (S "photo.png"), Option.none⟩) :=
  choose_invoice_attachment_fallback [⟨some (S "photo.png"), Option.none⟩] (by decide)

/-- CLAIM C10.  The selector is total (the embedding is a total function:
no input, including candidates lacking both `filename` and `title`, makes
it raise); every returned pair `(i, a)` satisfies `1 ≤ i ≤ length` with
`a` exactly the `i`-th (1-based) element; `None` is returned only for the
empty input. -/
theorem choose_invoice_attachment_sound (atts : List Cand) :
    (choose_invoice_attachment atts = Option.none ↔ atts = []) ∧
    (∀ (i : Nat) (a : Cand), choose_invoice_attachment atts = some (i, a) →
      1 ≤ i ∧ i ≤ atts.length ∧ atts[i - 1]? = some a) := by
  constructor
  · constructor
    · intro h
      cases hatts : atts with
      | nil => rfl
      | cons c rest =>
        subst hatts
        simp only [choose_invoice_attachment] at h
        cases hloop : chooseLoop selectorPatterns (c :: rest) with
        | none => rw [hloop] at h; simp at h
        | some r => rw [hloop] at h; simp at h
    · intro h
      subst h
      simp [choose_invoice_attachment, chooseLoop_nil]
  · intro i a h
    simp only [choose_invoice_attachment] at h
    cases hloop : chooseLoop selectorPatterns atts with
    | some r =>
      obtain ⟨k', a'⟩ := r
      rw [hloop] at h
      simp at h
      obtain ⟨hk, ha⟩ := h
      subst hk; subst ha
      exact chooseLoop_sound selectorPatterns atts _ _ hloop
    | none =>
      rw [hloop] at h
      cases hatts : atts with
      | nil => subst hatts; simp at h
      | cons c rest =>
        subst hatts
        simp at h
        obtain ⟨hi, ha⟩ := h
        subst hi; subst ha
        simp

/-- Witness for C10 at the empty input: the selector reports no
selection. -/
theorem choose_invoice_attachment_sound_witness :
    choose_invoice_attachment ([] : List Cand) = Option.none :=
  (choose_invoice_attachment_sound []).1.mpr rfl

/-! ## Loosely-shaped Python values

`src/gmail_invoices.py` manipulates dict-shaped data with optional fields
(JSON response bodies, attachment references).  `PyVal` models the Python
values such data can hold (floats are not modelled; none of the verified
code paths produces one).  `truthy` is Python truthiness. -/

inductive PyVal where
  | none : PyVal
  | str : List Char → PyVal
  | int : Int → PyVal
  | bool : Bool → PyVal
  | list : List PyVal → PyVal
  | dict : List (List Char × PyVal) → PyVal

/-- Python truthiness of a value. -/
def truthy : PyVal → Bool
  | PyVal.none => false
  | PyVal.str s => !s.isEmpty
  | PyVal.int n => n ≠ 0
  | PyVal.bool b => b
  | PyVal.list xs => !xs.isEmpty
  | PyVal.dict kvs => !kvs.isEmpty

/-- Python `d.get(k)` on a dict modelled as an association list (Python dicts
have unique keys, so first-match lookup is faithful). -/
def dictGet (d : List (List Char × PyVal)) (k : List Char) : Option PyVal :=
  match d with
  | [] => Option.none
  | kv :: rest => if kv.1 = k then some kv.2 else dictGet rest k

/-- Python `d.get(k)` seen as a Python value: a missing key reads as `None`
(indistinguishable, for the modelled code, from a key stored with value
`None`, exactly as in Python). -/
def getOrNone (d : List (List Char × PyVal)) (k : List Char) : PyVal :=
  match dictGet d k with
  | some v => v
  | Option.none => PyVal.none

/-- Python `a or b` on values (truthiness-based short-circuit). -/
def pyOrV (a b : PyVal) : PyVal := if truthy a then a else b

/-- Decimal digit character (explicit table; argument taken mod 10). -/
def digitChar (d : Nat) : Char :=
  match d % 10 with
  | 0 => '0' | 1 => '1' | 2 => '2' | 3 => '3' | 4 => '4'
  | 5 => '5' | 6 => '6' | 7 => '7' | 8 => '8' | _ => '9'

/-- Decimal digits of a natural number, most significant first
(fuel-based so that it is structural and kernel-evaluable; `fuel ≥ 1`
suffices for `n < 10`, and `natToChars` passes ample fuel). -/
def natToCharsAux : Nat → Nat → List Char
  | 0, _ => []
  | fuel + 1, n => if n < 10 then [digitChar n] else natToCharsAux fuel (n / 10) ++ [digitChar n]

/-- Decimal rendering of a natural number, as Python `str` produces. -/
def natToChars (n : Nat) : List Char := natToCharsAux (n + 1) n

/-- Decimal rendering of an integer, as Python `str`/f-strings produce. -/
def intToChars (n : Int) : List Char :=
  if n < 0 then '-' :: natToChars (-n).toNat else natToChars n.toNat

/-- Value of a decimal digit character, if it is one (code points 48-57). -/
def digitVal (c : Char) : Option Nat :=
  if 48 ≤ c.toNat ∧ c.toNat ≤ 57 then some (c.toNat - 48) else Option.none

/-- Parse a non-empty run of decimal digits. -/
def parseDigitsAux : List Char → Nat → Option Nat
  | [], acc => some acc
  | c :: rest, acc =>
    match digitVal c with
    | some d => parseDigitsAux rest (acc * 10 + d)
    | Option.none => Option.none

/-- Python `int(s)` on a string: optional surrounding whitespace, an
optional sign, then one or more decimal digits (digit-group underscores
are not modelled; no modelled input contains them).  `none` models a
raised `ValueError`. -/
def pyIntParse (s : List Char) : Option Int :=
  let t := (((s.dropWhile pyIsSpace).reverse).dropWhile pyIsSpace).reverse
  match t with
  | [] => Option.none
  | '+' :: rest =>
    (match rest with
     | [] => Option.none
     | _ => (parseDigitsAux rest 0).map fun n => (n : Int))
  | '-' :: rest =>
    (match rest with
     | [] => Option.none
     | _ => (parseDigitsAux rest 0).map fun n => -(n : Int))
  | _ => (parseDigitsAux t 0).map fun n => (n : Int)

/-- Python `int(x)` on a value: ints pass through, bools are 0/1, strings
are parsed, everything else raises (`none`). -/
def pyIntOfVal : PyVal → Option Int
  | PyVal.int n => some n
  | PyVal.bool b => some (if b then 1 else 0)
  | PyVal.str s => pyIntParse s
  | _ => Option.none

/-! ## `list_invoice_attachments` size coercion
(src/gmail_invoices.py, line 129)

Each attachment record contributes `"size_bytes": int(a.get("size") or 0)`.
`size_bytes_of` models that expression for one record; its argument is the
record value stored under `size` (`Option.none` when the key is missing).
An `Except.error` result models `int(...)` raising. -/

def size_bytes_of (size : Option PyVal) : Except Unit Int :=
  let v := match size with
    | some x => if truthy x then x else PyVal.int 0
    | Option.none => PyVal.int 0
  match pyIntOfVal v with
  | some n => Except.ok n
  | Option.none => Except.error ()

/-- CLAIM C2, counterexample.  The claim says the `size_bytes` coercion
never raises for any size value; but a present, truthy, non-numeric value
makes `int(a.get("size") or 0)` raise a `ValueError`: the string `abc` is
truthy, so `or 0` keeps it and `int` fails. -/
theorem size_bytes_of_raises_counterexample :
    size_bytes_of (some (PyVal.str (S "abc"))) = Except.error () := rfl

/-- CLAIM C2, amended.  A missing size maps to 0; any present falsy value
(empty string, 0, `None`, empty collections, `False`) maps to 0 without
raising; integer-parseable values coerce to their numeric value; but a
truthy non-numeric value raises. -/
theorem size_bytes_of_amended :
    size_bytes_of Option.none = Except.ok 0 ∧
    (∀ v : PyVal, truthy v = false → size_bytes_of (some v) = Except.ok 0) ∧
    size_bytes_of (some (PyVal.int 1234)) = Except.ok 1234 ∧
    size_bytes_of (some (PyVal.str (S "1234"))) = Except.ok 1234 ∧
    size_bytes_of (some (PyVal.str (S "abc"))) = Except.error () := by
  refine ⟨rfl, ?_, rfl, rfl, rfl⟩
  intro v hv
  simp [size_bytes_of, hv, pyIntOfVal]

/-- Witness for the amended C2: the empty string is falsy, hence coerces
to 0 without raising. -/
theorem size_bytes_of_amended_witness :
    size_bytes_of (some (PyVal.str [])) = Except.ok 0 :=
  size_bytes_of_amended.2.1 (PyVal.str []) rfl

/-! ## `upload_pdf_to_planner` input validation
(src/gmail_invoices.py, lines 202-211)

The Python code is:

  if not isinstance(pdf_bytes, (bytes, bytearray)) or len(pdf_bytes) == 0:
      raise ValueError(...)
  try:
      if not bytes(pdf_bytes[:4]).startswith(b"%PDF"):
          raise ValueError("Only application/pdf content can be uploaded")
  except Exception:
      pass

Note that the `ValueError` raised for a bad header is itself an
`Exception`, so the `except Exception: pass` arm catches and discards it:
the header check can never surface.  `upload_pdf_precheck` models the
whole validation prologue; bytes are `List Nat` (values < 256);
`Except.error` models an exception escaping the prologue, `Except.ok`
means execution continues into configuration lookup and the HTTP post. -/

inductive PyErr where
  | valueError : List Char → PyErr
  | runtimeError : List Char → PyErr
  | timeoutError : List Char → PyErr

/-- The PDF magic header bytes of b"%PDF". -/
def pdfMagic : List Nat := [37, 80, 68, 70]

def upload_pdf_precheck (pdf_bytes : List Nat) : Except PyErr Unit :=
  if pdf_bytes.length = 0 then
    Except.error (PyErr.valueError (S "pdf_bytes must be non-empty bytes"))
  else
    -- try: if not bytes(pdf_bytes[:4]).startswith(b"%PDF"): raise ValueError(...)
    -- except Exception: pass
    let headerCheck : Except PyErr Unit :=
      if pdfMagic.isPrefixOf (pdf_bytes.take 4) then Except.ok ()
      else Except.error (PyErr.valueError (S "Only application/pdf content can be uploaded"))
    match headerCheck with
    | Except.ok () => Except.ok ()
    | Except.error _ => Except.ok ()   -- swallowed by the bare except

/-- CLAIM C3, code bug.  The claim (and the function docstring: raises
`ValueError` if input bytes are _not a PDF header_) requires a non-empty
non-PDF payload to fail validation; but the `except Exception: pass`
around the header check catches the very `ValueError` the check raises
(the inline comment shows it was only meant for slicing failures), so the
payload b"NOPE" passes the prologue and execution proceeds to the
configuration lookup and the HTTP request. -/
theorem upload_pdf_precheck_nonpdf_passes :
    upload_pdf_precheck [78, 79, 80, 69] = Except.ok () := rfl

/-- The validation prologue does reject an empty payload, and accepts a
real PDF header — the swallow only affects the header check. -/
theorem upload_pdf_precheck_empty_rejected :
    upload_pdf_precheck [] =
      Except.error (PyErr.valueError (S "pdf_bytes must be non-empty bytes")) ∧
    upload_pdf_precheck [37, 80, 68, 70, 45] = Except.ok () := ⟨rfl, rfl⟩

/-! ## `upload_pdf_to_planner` response handling
(src/gmail_invoices.py, lines 229-262)

After the HTTP post, the function fails on a non-2xx status with a message
carrying the status code and the first 200 characters of the body, parses
the JSON body (falling back to an empty object), and normalizes the
result into an InsertReport.  `upload_response_to_report` models this
response-handling suffix of the function: `status` and `text` are the
response status and body text, `body` is the parsed JSON object
(`Option.none` when `resp.json()` raises). -/

structure InsertReport where
  created_order_ids : PyVal
  warnings : PyVal
  errors : PyVal
  source_message_id : List Char
  notes : PyVal

/-- The `warnings = data.get(k) or []; if isinstance(warnings, str):
warnings = [warnings]` normalization applied (identically) to the
`warnings` and `errors` fields.  The argument is `data.get(k)` as a Python
value (`PyVal.none` for an absent key). -/
def coerce_str_or_list (v : PyVal) : PyVal :=
  let w := if truthy v then v else PyVal.list []
  match w with
  | PyVal.str s => PyVal.list [PyVal.str s]
  | w => w

def upload_response_to_report (status : Int) (text : List Char)
    (body : Option (List (List Char × PyVal)))
    (source_message_id : Option (List Char)) : Except PyErr InsertReport :=
  if status < 200 ∨ 300 ≤ status then
    Except.error (PyErr.runtimeError
      (S "Planner upload failed: HTTP " ++ intToChars status ++ S ": " ++ text.take 200))
  else
    let data := match body with
      | some d => d
      | Option.none => []            -- resp.json() raised: data = an empty dict
    -- created = data.get("created_order_ids"); fall back (on None) to
    -- data.get("created"); fall back (on None) to []
    let c0 := getOrNone data (S "created_order_ids")
    let created := match c0 with
      | PyVal.none =>
        (match getOrNone data (S "created") with
         | PyVal.none => PyVal.list []
         | c1 => c1)
      | c0 => c0
    let warnings := coerce_str_or_list (getOrNone data (S "warnings"))
    let errors := coerce_str_or_list (getOrNone data (S "errors"))
    let notes := pyOrV (getOrNone data (S "notes"))
      (pyOrV (getOrNone data (S "detail")) (PyVal.str []))
    let smid := match source_message_id with
      | some s => if s.isEmpty then [] else s   -- source_message_id or ""
      | Option.none => []
    Except.ok
      { created_order_ids := created
        warnings := warnings
        errors := errors
        source_message_id := smid
        notes := notes }

/-- The list `a` occurs contiguously inside the list `b`. -/
def listContains (a b : List Char) : Prop := ∃ s t, b = s ++ a ++ t

/-- CLAIM C7, counterexample.  The claim says a single-string `warnings`
field always normalizes to the one-element sequence holding that string;
but the empty string is falsy, so `data.get("warnings") or []` discards it
and the report carries an empty list instead of a one-element list. -/
theorem coerce_str_or_list_counterexample :
    (upload_response_to_report 200 [] (some [(S "warnings", PyVal.str [])])
        Option.none).map (fun r => r.warnings) = Except.ok (PyVal.list []) ∧
    PyVal.list [] ≠ PyVal.list [PyVal.str []] := by
  refine ⟨rfl, by simp⟩

/-- CLAIM C7, amended.  `warnings` and `errors` are both normalized by the
same coercion, independently: an absent field (read as `None`) gives the
empty sequence, a non-empty string gives the one-element sequence holding
it, the empty string gives the empty sequence, and a sequence is used
as-is — so over these input shapes the result is always a sequence. -/
theorem coerce_str_or_list_amended :
    coerce_str_or_list PyVal.none = PyVal.list [] ∧
    (∀ s : List Char, s ≠ [] → coerce_str_or_list (PyVal.str s) = PyVal.list [PyVal.str s]) ∧
    coerce_str_or_list (PyVal.str []) = PyVal.list [] ∧
    (∀ xs : List PyVal, coerce_str_or_list (PyVal.list xs) = PyVal.list xs) ∧
    (∀ v : PyVal, (v = PyVal.none ∨ (∃ s, v = PyVal.str s) ∨ (∃ xs, v = PyVal.list xs)) →
      ∃ ys, coerce_str_or_list v = PyVal.list ys) := by
  refine ⟨rfl, ?_, rfl, ?_, ?_⟩
  · intro s hs
    simp [coerce_str_or_list, truthy, hs]
  · intro xs
    cases xs with
    | nil => rfl
    | cons x xs => simp [coerce_str_or_list, truthy]
  · rintro v (rfl | ⟨s, rfl⟩ | ⟨xs, rfl⟩)
    · exact ⟨[], rfl⟩
    · cases s with
      | nil => exact ⟨[], rfl⟩
      | cons c cs => exact ⟨[PyVal.str (c :: cs)], by simp [coerce_str_or_list, truthy]⟩
    · cases xs with
      | nil => exact ⟨[], rfl⟩
      | cons x xs => exact ⟨x :: xs, by simp [coerce_str_or_list, truthy]⟩

/-- Witness for the amended C7: the string `minor` normalizes to the
one-element list holding it. -/
theorem coerce_str_or_list_amended_witness :
    coerce_str_or_list (PyVal.str (S "minor")) = PyVal.list [PyVal.str (S "minor")] :=
  coerce_str_or_list_amended.2.1 (S "minor") (by decide)

/-- CLAIM C8.  Every response with a status outside 200-299 makes the
upload fail with a request error whose message contains the status code
and (at most) the first 200 characters of the body; the exact message is
the source one. -/
theorem upload_response_error_status (status : Int) (text : List Char)
    (body : Option (List (List Char × PyVal))) (smid : Option (List Char))
    (h : status < 200 ∨ 300 ≤ status) :
    upload_response_to_report status text body smid =
      Except.error (PyErr.runtimeError
        (S "Planner upload failed: HTTP " ++ intToChars status ++ S ": " ++ text.take 200)) ∧
    listContains (S "HTTP " ++ intToChars status)
      (S "Planner upload failed: HTTP " ++ intToChars status ++ S ": " ++ text.take 200) ∧
    listContains (text.take 200)
      (S "Planner upload failed: HTTP " ++ intToChars status ++ S ": " ++ text.take 200) := by
  refine ⟨by simp [upload_response_to_report, h], ?_, ?_⟩
  · refine ⟨S "Planner upload failed: ", S ": " ++ text.take 200, ?_⟩
    simp [S]
  · refine ⟨S "Planner upload failed: HTTP " ++ intToChars status ++ S ": ", [], ?_⟩
    simp

/-- Witness for C8 at the failure scenario of the spec: HTTP 400 with body
`Bad request: invalid PDF` (24 characters, so untruncated). -/
theorem upload_response_error_status_witness :
    upload_response_to_report 400 (S "Bad request: invalid PDF") Option.none Option.none =
      Except.error (PyErr.runtimeError
        (S "Planner upload failed: HTTP " ++ intToChars 400 ++ S ": " ++
          (S "Bad request: invalid PDF").take 200)) ∧
    listContains (S "HTTP " ++ intToChars 400)
      (S "Planner upload failed: HTTP " ++ intToChars 400 ++ S ": " ++
        (S "Bad request: invalid PDF").take 200) ∧
    listContains ((S "Bad request: invalid PDF").take 200)
      (S "Planner upload failed: HTTP " ++ intToChars 400 ++ S ": " ++
        (S "Bad request: invalid PDF").take 200) :=
  upload_response_error_status 400 (S "Bad request: invalid PDF") Option.none Option.none
    (Or.inr (by decide))

/-! ## `download_attachment` identifier validation
(src/gmail_invoices.py, lines 156-166)

The function reads the message and attachment identifiers accepting both
snake_case and camelCase keys, raises `ValueError` when either resolves to
a falsy value, and only then calls the Gmail download helper.
`download_attachment_plan` models the prefix of the function up to and
including the construction of that helper call: an `Except.error` is a
raised `ValueError` (so no helper call happens); an `Except.ok` carries
the helper-call arguments `(str(message_id), str(attachment_id),
preferred_name)`. -/

/-- Python `str(x)` for the values that can reach it here (collection
renderings are placeholders; no verified path depends on them). -/
def pyStrOf : PyVal → List Char
  | PyVal.str s => s
  | PyVal.int n => intToChars n
  | PyVal.bool b => if b then S "True" else S "False"
  | PyVal.none => S "None"
  | PyVal.list _ => S "[...]"
  | PyVal.dict _ => S "dict"

def download_attachment_plan (ref : List (List Char × PyVal)) :
    Except PyErr (List Char × List Char × PyVal) :=
  let message_id := pyOrV (getOrNone ref (S "message_id")) (getOrNone ref (S "messageId"))
  let attachment_id := pyOrV (getOrNone ref (S "attachment_id")) (getOrNone ref (S "attachmentId"))
  if truthy message_id = false ∨ truthy attachment_id = false then
    Except.error (PyErr.valueError
      (S "AttachmentRef must include message_id and attachment_id"))
  else
    let preferred_name := pyOrV (getOrNone ref (S "filename"))
      (PyVal.str (S "gmail_" ++ pyStrOf attachment_id))
    Except.ok (pyStrOf message_id, pyStrOf attachment_id, preferred_name)

/-- CLAIM C9.  Whenever the message identifier or the attachment
identifier is absent from the reference — under both accepted key
spellings — the function raises an input-validation error, and no
download-helper call is constructed (the plan is an error, not a call). -/
theorem download_attachment_plan_missing_id (ref : List (List Char × PyVal))
    (h : (dictGet ref (S "message_id") = Option.none ∧
          dictGet ref (S "messageId") = Option.none) ∨
         (dictGet ref (S "attachment_id") = Option.none ∧
          dictGet ref (S "attachmentId") = Option.none)) :
    download_attachment_plan ref =
      Except.error (PyErr.valueError
        (S "AttachmentRef must include message_id and attachment_id")) := by
  rcases h with ⟨h1, h2⟩ | ⟨h1, h2⟩ <;>
    simp [download_attachment_plan, getOrNone, h1, h2, pyOrV, truthy]

/-- Witness for C9 at the fetcher scenario of the spec: a reference
missing `attachment_id` (in both spellings) fails validation. -/
theorem download_attachment_plan_missing_id_witness :
    download_attachment_plan [(S "message_id", PyVal.str (S "m1"))] =
      Except.error (PyErr.valueError
        (S "AttachmentRef must include message_id and attachment_id")) :=
  download_attachment_plan_missing_id [(S "message_id", PyVal.str (S "m1"))]
    (Or.inr ⟨rfl, rfl⟩)

/-! ## `_ms_to_iso8601` (src/gmail_invoices.py, lines 74-82)

  try:
      ms_int = int(ms)
      dt = datetime.fromtimestamp(ms_int / 1000.0, tz=timezone.utc)
      return dt.isoformat().replace("+00:00", "Z")
  except Exception:
      return ""

The model parses the value with Python `int` semantics, splits the epoch
milliseconds into floor seconds and non-negative sub-second microseconds
(what `fromtimestamp` recovers from `ms_int / 1000.0`; the float division
is exact to the microsecond for every timestamp magnitude the program can
meet), bounds the seconds to the `datetime` year range 1..9999 (outside
it `fromtimestamp` raises, which the bare except maps to the empty
string), computes the proleptic-Gregorian civil date, and renders
`isoformat()` (date, `T`, time, microseconds only when non-zero, offset
`+00:00`) followed by `replace("+00:00", "Z")`. -/

/-- Replace every occurrence of `pat` (non-empty) by `rep`, scanning left
to right, as Python `str.replace`.  Fuel-structural (fuel bounds the
number of consumed characters; `listReplace` passes the input length,
which always suffices because every step consumes at least one
character). -/
def listReplaceAux (pat rep : List Char) : Nat → List Char → List Char
  | _, [] => []
  | 0, l => l
  | fuel + 1, c :: rest =>
    if pat.isPrefixOf (c :: rest) ∧ pat ≠ [] then
      rep ++ listReplaceAux pat rep fuel (rest.drop (pat.length - 1))
    else c :: listReplaceAux pat rep fuel rest

def listReplace (pat rep l : List Char) : List Char :=
  listReplaceAux pat rep l.length l

/-- Left-pad with `0` to width `w` (as the fixed-width fields of
`isoformat` are rendered). -/
def padZeros (w : Nat) (s : List Char) : List Char :=
  List.replicate (w - s.length) '0' ++ s

/-- Lower bound of the `datetime` range in epoch seconds
(0001-01-01T00:00:00Z). -/
def minEpochSecs : Int := -62135596800

/-- Upper bound of the `datetime` range in epoch seconds
(9999-12-31T23:59:59Z). -/
def maxEpochSecs : Int := 253402300799

/-- Proleptic-Gregorian civil date (year, month, day) from a count of
days since 0001-01-01, via 400-year eras. -/
def civilFromDays (days : Nat) : Nat × Nat × Nat :=
  let zz := days + 306                      -- days since 0000-03-01
  let era := zz / 146097
  let doe := zz % 146097
  let yoe := (doe - doe / 1460 + doe / 36524 - doe / 146096) / 365
  let y := yoe + era * 400
  let doy := doe - (365 * yoe + yoe / 4 - yoe / 100)
  let mp := (5 * doy + 2) / 153
  let d := doy - (153 * mp + 2) / 5 + 1
  let m := if mp < 10 then mp + 3 else mp - 9
  (if m ≤ 2 then y + 1 else y, m, d)

def ms_to_iso8601 (ms : PyVal) : List Char :=
  match pyIntOfVal ms with
  | Option.none => []                       -- int(ms) raised; except -> ""
  | some n =>
    let secs : Int := Int.fdiv n 1000
    let micros : Nat := (Int.emod n 1000).toNat * 1000
    if secs < minEpochSecs ∨ maxEpochSecs < secs then []   -- fromtimestamp raised
    else
      let total : Nat := (secs - minEpochSecs).toNat       -- seconds since 0001-01-01
      let sod := total % 86400
      let date := civilFromDays (total / 86400)
      let frac := if micros = 0 then [] else '.' :: padZeros 6 (natToChars micros)
      let core :=
        padZeros 4 (natToChars date.1) ++ '-' :: padZeros 2 (natToChars date.2.1) ++
        '-' :: padZeros 2 (natToChars date.2.2) ++
        'T' :: padZeros 2 (natToChars (sod / 3600)) ++
        ':' :: padZeros 2 (natToChars (sod % 3600 / 60)) ++
        ':' :: padZeros 2 (natToChars (sod % 60)) ++ frac ++ S "+00:00"
      listReplace (S "+00:00") (S "Z") core

/-- CLAIM C4, counterexample.  The input `1725478294000` of the round-trip
scenario does _not_ produce `2024-09-04T18:11:34Z`: those epoch
milliseconds fall at 19:31:34 UTC (1725478294 = 19970 days + 70294
seconds past 1970-01-01, and 70294 s = 19 h 31 min 34 s). -/
theorem ms_to_iso8601_counterexample :
    ms_to_iso8601 (PyVal.str (S "1725478294000")) ≠ S "2024-09-04T18:11:34Z" ∧
    ms_to_iso8601 (PyVal.str (S "1725478294000")) = S "2024-09-04T19:31:34Z" := by
  constructor <;> decide

/-- CLAIM C4, amended.  The normalizer parses epoch milliseconds, converts
to UTC and formats ISO-8601 with a literal `Z` suffix; any value `int()`
cannot parse yields the empty string instead of an error; and the
scenario input `1725478294000` yields `2024-09-04T19:31:34Z` (not the
`18:11:34Z` the spec printed). -/
theorem ms_to_iso8601_amended :
    (∀ v : PyVal, pyIntOfVal v = Option.none → ms_to_iso8601 v = []) ∧
    ms_to_iso8601 (PyVal.str (S "1725478294000")) = S "2024-09-04T19:31:34Z" ∧
    ms_to_iso8601 (PyVal.str (S "0")) = S "1970-01-01T00:00:00Z" := by
  refine ⟨?_, by decide, by decide⟩
  intro v hv
  simp [ms_to_iso8601, hv]

/-- Witness for the amended C4: a non-numeric string fails `int()` and is
normalized to the empty string. -/
theorem ms_to_iso8601_amended_witness :
    ms_to_iso8601 (PyVal.str (S "not-a-number")) = [] :=
  ms_to_iso8601_amended.1 (PyVal.str (S "not-a-number")) (by decide)

/-! ## `_append_lookback_to_query` (src/gmail_invoices.py, lines 62-71)

  q = (query or "").strip()
  tokens = q.lower().split()
  has_attachment = any(t.startswith("has:attachment") for t in tokens)
  has_newer_than = any(t.startswith("newer_than:") for t in tokens)
  if not has_attachment:
      q = f"{q} has:attachment".strip()
  if lookback_days and lookback_days > 0 and not has_newer_than:
      q = f"{q} newer_than:{int(lookback_days)}d".strip()
  return q

`query or ""` is the identity on the string model (the empty string is
replaced by itself).  `str.strip` with no argument strips `pyIsSpace`
characters from both ends; `str.split` with no argument splits on
`pyIsSpace` runs, producing no empty tokens. -/

/-- Python `str.strip()`. -/
def pyStrip (l : List Char) : List Char :=
  ((l.dropWhile pyIsSpace).reverse.dropWhile pyIsSpace).reverse

/-- Python `str.split()` (whitespace mode), with an accumulator holding
the current in-progress token reversed. -/
def pySplitAux : List Char → List Char → List (List Char)
  | [], acc => if acc.isEmpty then [] else [acc.reverse]
  | c :: rest, acc =>
    if pyIsSpace c then
      if acc.isEmpty then pySplitAux rest [] else acc.reverse :: pySplitAux rest []
    else pySplitAux rest (c :: acc)

def pySplit (l : List Char) : List (List Char) := pySplitAux l []

/-- Python `q.lower().split()`. -/
def lowerTokens (l : List Char) : List (List Char) := pySplit (l.map pyLower)

def hasAttachmentTok : List Char := S "has:attachment"

def newerThanStart : List Char := S "newer_than:"

/-- The token appended by the lookback branch:
`newer_than:` + `str(int(lookback_days))` + `d`. -/
def newerToken (lookback_days : Int) : List Char :=
  newerThanStart ++ intToChars lookback_days ++ ['d']

/-- Python `any(t.startswith("has:attachment") for t in q.lower().split())`. -/
def hasAttFlag (q : List Char) : Bool :=
  (lowerTokens q).any fun t => hasAttachmentTok.isPrefixOf t

/-- Python `any(t.startswith("newer_than:") for t in q.lower().split())`. -/
def hasNewerFlag (q : List Char) : Bool :=
  (lowerTokens q).any fun t => newerThanStart.isPrefixOf t

def append_lookback_to_query (query : List Char) (lookback_days : Int) : List Char :=
  let q := pyStrip query
  let q1 := if hasAttFlag q then q else pyStrip (q ++ ' ' :: hasAttachmentTok)
  if lookback_days ≠ 0 ∧ 0 < lookback_days ∧ hasNewerFlag q = false then
    pyStrip (q1 ++ ' ' :: newerToken lookback_days)
  else q1

/-! ### Character-level helper lemmas -/

/-- Lower-casing fixes the separator character. -/
theorem pyLower_blank : pyLower ' ' = ' ' := rfl

/-- Lower-casing does not change whether a character is whitespace. -/
theorem pyLower_space (c : Char) : pyIsSpace (pyLower c) = pyIsSpace c := by
  unfold pyLower
  split <;> rfl

/-- The head of a `dropWhile` result fails the predicate. -/
theorem head_dropWhile_false (p : Char → Bool) :
    ∀ (l : List Char) (c : Char), (List.dropWhile p l).head? = some c → p c = false := by
  intro l
  induction l with
  | nil => intro c h; simp at h
  | cons a rest ih =>
    intro c h
    by_cases hp : p a
    · rw [List.dropWhile_cons_of_pos hp] at h
      exact ih c h
    · rw [List.dropWhile_cons_of_neg hp] at h
      simp at h
      subst h
      simpa using hp

/-- A non-empty `dropWhile` result keeps the last element. -/
theorem getLast_dropWhile (p : Char → Bool) :
    ∀ l : List Char, List.dropWhile p l ≠ [] →
      (List.dropWhile p l).getLast? = l.getLast? := by
  intro l
  induction l with
  | nil => intro h; simp at h
  | cons a rest ih =>
    intro h
    by_cases hp : p a
    · rw [List.dropWhile_cons_of_pos hp] at h ⊢
      cases hr : rest with
      | nil => subst hr; simp at h
      | cons b rest2 =>
        subst hr
        rw [List.getLast?_cons_cons]
        exact ih h
    · rw [List.dropWhile_cons_of_neg hp]

/-- A `dropWhile` is the identity when the head fails the predicate. -/
theorem dropWhile_of_head_false (p : Char → Bool) (l : List Char)
    (h : ∀ c, l.head? = some c → p c = false) : List.dropWhile p l = l := by
  cases l with
  | nil => rfl
  | cons a rest => exact List.dropWhile_cons_of_neg (by simp [h a rfl])

/-- Removing trailing whitespace is the identity when the last character
is not whitespace. -/
theorem trail_strip (l : List Char)
    (h : ∀ c, l.getLast? = some c → pyIsSpace c = false) :
    (List.dropWhile pyIsSpace l.reverse).reverse = l := by
  rcases List.eq_nil_or_concat' l with rfl | ⟨L, a, rfl⟩
  · rfl
  · have ha : pyIsSpace a = false := h a (List.getLast?_concat L)
    rw [List.reverse_append]
    simp only [List.reverse_cons, List.reverse_nil, List.nil_append, List.singleton_append]
    rw [List.dropWhile_cons_of_neg (by simp [ha])]
    simp

/-- The function `pyStrip` is the identity on strings with no leading or trailing
whitespace. -/
theorem strip_fix (l : List Char)
    (hh : ∀ c, l.head? = some c → pyIsSpace c = false)
    (hl : ∀ c, l.getLast? = some c → pyIsSpace c = false) : pyStrip l = l := by
  unfold pyStrip
  rw [dropWhile_of_head_false pyIsSpace l hh]
  exact trail_strip l hl

/-- The head of a stripped string is not whitespace. -/
theorem strip_head (l : List Char) :
    ∀ c, (pyStrip l).head? = some c → pyIsSpace c = false := by
  intro c h
  unfold pyStrip at h
  rw [List.head?_reverse] at h
  set w := List.dropWhile pyIsSpace (List.dropWhile pyIsSpace l).reverse with hw
  have hwne : w ≠ [] := by
    intro hnil
    rw [hnil] at h
    simp at h
  rw [getLast_dropWhile pyIsSpace _ (hw ▸ hwne)] at h
  rw [List.getLast?_reverse] at h
  exact head_dropWhile_false pyIsSpace l c h

/-- The last character of a stripped string is not whitespace. -/
theorem strip_last (l : List Char) :
    ∀ c, (pyStrip l).getLast? = some c → pyIsSpace c = false := by
  intro c h
  unfold pyStrip at h
  rw [List.getLast?_reverse] at h
  exact head_dropWhile_false pyIsSpace _ c h

/-- Stripping is idempotent. -/
theorem strip_idem (l : List Char) : pyStrip (pyStrip l) = pyStrip l :=
  strip_fix (pyStrip l) (strip_head l) (strip_last l)

/-! ### Token-level helper lemmas -/

/-- The separator character is whitespace. -/
theorem pyIsSpace_blank : pyIsSpace ' ' = true := rfl

/-- Splitting distributes over a single separating space. -/
theorem splitAux_append (l1 l2 : List Char) :
    ∀ acc, pySplitAux (l1 ++ ' ' :: l2) acc = pySplitAux l1 acc ++ pySplitAux l2 [] := by
  induction l1 with
  | nil =>
    intro acc
    simp only [List.nil_append, pySplitAux]
    by_cases hacc : acc.isEmpty <;> simp [hacc, pySplitAux, pyIsSpace_blank]
  | cons c rest ih =>
    intro acc
    simp only [List.cons_append, pySplitAux]
    by_cases hc : pyIsSpace c
    · simp only [hc, if_pos]
      by_cases hacc : acc.isEmpty <;> simp [hacc, ih]
    · simp [hc, ih]

/-- Splitting a run with no whitespace yields (at most) one token. -/
theorem splitAux_single (t : List Char) :
    ∀ acc, (∀ c ∈ t, pyIsSpace c = false) →
      pySplitAux t acc = if acc.isEmpty ∧ t.isEmpty then [] else [acc.reverse ++ t] := by
  induction t with
  | nil =>
    intro acc _
    by_cases hacc : acc.isEmpty <;> simp [pySplitAux, hacc]
  | cons c rest ih =>
    intro acc h
    have hc : pyIsSpace c = false := h c (by simp)
    simp only [pySplitAux, hc, Bool.false_eq_true, if_neg, if_false]
    rw [ih (c :: acc) (fun d hd => h d (by simp [hd]))]
    simp

/-- A non-empty whitespace-free string is a single token. -/
theorem split_single (t : List Char) (h : ∀ c ∈ t, pyIsSpace c = false)
    (hne : t ≠ []) : pySplit t = [t] := by
  unfold pySplit
  rw [splitAux_single t [] h]
  simp [hne]

/-- A list is a `isPrefixOf`-prefix of itself extended on the right. -/
theorem isPrefixOf_append_self : ∀ l t : List Char, l.isPrefixOf (l ++ t) = true := by
  intro l t
  induction l with
  | nil => simp [List.isPrefixOf]
  | cons c rest ih => simp [List.isPrefixOf, ih]

/-! ### Appending one whitespace-free token -/

/-- Value of `pyStrip (q ++ blank ++ tok)` when `q` is already stripped
and `tok` is non-empty and whitespace-free: the leading strip can only act
when `q` is empty, the trailing strip never acts. -/
theorem strip_append_val (q tok : List Char) (hq : pyStrip q = q)
    (ht : ∀ c ∈ tok, pyIsSpace c = false) (hne : tok ≠ []) :
    pyStrip (q ++ ' ' :: tok) = if q.isEmpty then tok else q ++ ' ' :: tok := by
  have htok_head : ∀ c, tok.head? = some c → pyIsSpace c = false := by
    intro c hc
    cases tok with
    | nil => simp at hc
    | cons a rest => simp at hc; subst hc; exact ht a (by simp)
  have htok_last : ∀ c, tok.getLast? = some c → pyIsSpace c = false := by
    intro c hc
    rcases List.eq_nil_or_concat' tok with rfl | ⟨L, a, rfl⟩
    · simp at hc
    · rw [List.getLast?_concat] at hc
      simp at hc
      subst hc
      exact ht a (by simp)
  cases hq0 : q with
  | nil =>
    simp only [List.isEmpty_nil, if_pos, List.nil_append]
    unfold pyStrip
    rw [List.dropWhile_cons_of_pos (by simp [pyIsSpace_blank]),
        dropWhile_of_head_false pyIsSpace tok htok_head]
    exact trail_strip tok htok_last
  | cons c0 q' =>
    have hc0 : pyIsSpace c0 = false := by
      have := strip_head q
      rw [hq, hq0] at this
      exact this c0 rfl
    simp only [List.isEmpty_cons, if_neg, Bool.false_eq_true, if_false]
    apply strip_fix
    · intro c hc
      simp at hc
      exact hc ▸ hc0
    · rcases List.eq_nil_or_concat' tok with rfl | ⟨L, a, rfl⟩
      · exact absurd rfl hne
      · intro c hc
        have heq : (c0 :: q') ++ ' ' :: (L ++ [a]) = ((c0 :: q') ++ ' ' :: L) ++ [a] := by
          simp
        rw [heq, List.getLast?_concat] at hc
        simp at hc
        have := ht a (by simp)
        rwa [hc] at this

/-- Tokens of `pyStrip (q ++ blank ++ tok)` when `q` is stripped and
`tok` is non-empty and whitespace-free: the tokens of `q` followed by the
lower-cased `tok`. -/
theorem lowerTokens_strip_append (q tok : List Char) (hq : pyStrip q = q)
    (ht : ∀ c ∈ tok, pyIsSpace c = false) (hne : tok ≠ []) :
    lowerTokens (pyStrip (q ++ ' ' :: tok)) = lowerTokens q ++ [tok.map pyLower] := by
  have hmap : ∀ c ∈ tok.map pyLower, pyIsSpace c = false := by
    intro c hc
    rw [List.mem_map] at hc
    obtain ⟨d, hd, rfl⟩ := hc
    rw [pyLower_space d]
    exact ht d hd
  have hmapne : tok.map pyLower ≠ [] := by
    intro hx
    exact hne (List.map_eq_nil_iff.mp hx)
  rw [strip_append_val q tok hq ht hne]
  cases hq0 : q with
  | nil =>
    simp only [List.isEmpty_nil, if_pos]
    unfold lowerTokens
    rw [split_single (tok.map pyLower) hmap hmapne]
    simp [lowerTokens, pySplit, pySplitAux]
  | cons c0 q' =>
    simp only [List.isEmpty_cons, Bool.false_eq_true, if_false]
    unfold lowerTokens pySplit
    have : (c0 :: q' ++ ' ' :: tok).map pyLower =
        (c0 :: q').map pyLower ++ ' ' :: tok.map pyLower := by
      simp [pyLower_blank]
    rw [this, splitAux_append]
    rw [show pySplitAux (tok.map pyLower) [] = pySplit (tok.map pyLower) from rfl,
        split_single (tok.map pyLower) hmap hmapne]

/-! ### Whitespace-freeness of the appended tokens -/

theorem hasAttachmentTok_nonspace : ∀ c ∈ hasAttachmentTok, pyIsSpace c = false := by
  decide

theorem hasAttachmentTok_ne : hasAttachmentTok ≠ [] := by decide

theorem digitChar_nonspace (d : Nat) : pyIsSpace (digitChar d) = false := by
  unfold digitChar
  split <;> rfl

theorem natToCharsAux_nonspace :
    ∀ (fuel n : Nat), ∀ c ∈ natToCharsAux fuel n, pyIsSpace c = false := by
  intro fuel
  induction fuel with
  | zero => intro n c hc; simp [natToCharsAux] at hc
  | succ f ih =>
    intro n c hc
    unfold natToCharsAux at hc
    by_cases h10 : n < 10
    · simp [h10] at hc
      subst hc
      exact digitChar_nonspace n
    · simp [h10] at hc
      rcases hc with hc | hc
      · exact ih (n / 10) c hc
      · subst hc
        exact digitChar_nonspace n

theorem intToChars_nonspace (n : Int) : ∀ c ∈ intToChars n, pyIsSpace c = false := by
  intro c hc
  unfold intToChars at hc
  by_cases hn : n < 0
  · simp [hn] at hc
    rcases hc with hc | hc
    · rw [hc]; rfl
    · exact natToCharsAux_nonspace _ _ c hc
  · simp [hn] at hc
    exact natToCharsAux_nonspace _ _ c hc

theorem newerToken_nonspace (lb : Int) : ∀ c ∈ newerToken lb, pyIsSpace c = false := by
  intro c hc
  unfold newerToken at hc
  simp [List.mem_append] at hc
  rcases hc with hc | hc | hc
  · revert hc
    have : ∀ c ∈ newerThanStart, pyIsSpace c = false := by decide
    exact this c
  · exact intToChars_nonspace lb c hc
  · rw [hc]; rfl

theorem newerToken_ne (lb : Int) : newerToken lb ≠ [] := by
  unfold newerToken newerThanStart
  simp [S]

/-! ### Prefix-flag facts for the appended tokens -/

theorem hasAttachmentTok_lower :
    hasAttachmentTok.map pyLower = hasAttachmentTok := by decide

theorem hasAttachmentTok_self_flag :
    hasAttachmentTok.isPrefixOf (hasAttachmentTok.map pyLower) = true := by decide

theorem newerToken_flag (lb : Int) :
    newerThanStart.isPrefixOf ((newerToken lb).map pyLower) = true := by
  unfold newerToken
  rw [List.map_append, List.map_append]
  rw [show newerThanStart.map pyLower = newerThanStart by decide]
  rw [List.append_assoc]
  exact isPrefixOf_append_self newerThanStart _

/-! ### Idempotence of the query augmentation -/

/-- CLAIM C6.  `_append_lookback_to_query` is idempotent: for every query
string and every lookback value, applying the augmentation twice yields
exactly the same string as applying it once.  (The first application
leaves a stripped string whose token list already carries a
`has:attachment`-starting token, and — whenever the lookback branch is
live — a `newer_than:`-starting token, so the second application takes no
branch and returns its stripped input unchanged.) -/
theorem append_lookback_to_query_idempotent (query : List Char) (lb : Int) :
    append_lookback_to_query (append_lookback_to_query query lb) lb =
      append_lookback_to_query query lb := by
  have hq : pyStrip (pyStrip query) = pyStrip query := strip_idem query
  set q := pyStrip query with hqdef
  -- Stage 1: after the has:attachment branch the string is stripped, its
  -- tokens carry the attachment flag, and the newer_than flag is unchanged.
  have stage1 : ∃ q1,
      (if hasAttFlag q then q else pyStrip (q ++ ' ' :: hasAttachmentTok)) = q1 ∧
      pyStrip q1 = q1 ∧ hasAttFlag q1 = true ∧ hasNewerFlag q1 = hasNewerFlag q := by
    by_cases ha : hasAttFlag q = true
    · exact ⟨q, by simp [ha], hq, ha, rfl⟩
    · have htoks := lowerTokens_strip_append q hasAttachmentTok hq
        hasAttachmentTok_nonspace hasAttachmentTok_ne
      have ha' : hasAttFlag q = false := by simpa using ha
      refine ⟨pyStrip (q ++ ' ' :: hasAttachmentTok), by simp [ha'], strip_idem _, ?_, ?_⟩
      · unfold hasAttFlag
        rw [htoks, List.any_append]
        simp [hasAttachmentTok_self_flag]
      · unfold hasNewerFlag
        rw [htoks, List.any_append]
        simp [show newerThanStart.isPrefixOf (hasAttachmentTok.map pyLower) = false by decide,
          hasNewerFlag]
  obtain ⟨q1, hq1eq, hq1fix, hq1att, hq1new⟩ := stage1
  -- Stage 2: after the lookback branch the result is stripped, carries the
  -- attachment flag, and carries the newer_than flag whenever the lookback
  -- branch is live.
  have stage2 : ∃ r, append_lookback_to_query query lb = r ∧
      pyStrip r = r ∧ hasAttFlag r = true ∧
      ((lb ≠ 0 ∧ 0 < lb) → hasNewerFlag r = true) := by
    by_cases hcond : lb ≠ 0 ∧ 0 < lb ∧ hasNewerFlag q = false
    · have htoks := lowerTokens_strip_append q1 (newerToken lb) hq1fix
        (newerToken_nonspace lb) (newerToken_ne lb)
      refine ⟨pyStrip (q1 ++ ' ' :: newerToken lb), ?_, strip_idem _, ?_, ?_⟩
      · simp only [append_lookback_to_query]
        rw [← hqdef, hq1eq]
        simp [hcond]
      · unfold hasAttFlag
        rw [htoks, List.any_append]
        have := hq1att
        unfold hasAttFlag at this
        simp [this]
      · intro _
        unfold hasNewerFlag
        rw [htoks, List.any_append]
        simp [newerToken_flag lb]
    · refine ⟨q1, ?_, hq1fix, hq1att, ?_⟩
      · simp only [append_lookback_to_query]
        rw [← hqdef, hq1eq]
        simp [hcond]
      · intro hl
        have hnq : hasNewerFlag q = true := by
          rcases Bool.eq_false_or_eq_true (hasNewerFlag q) with htrue | hfalse
          · exact htrue
          · exact absurd ⟨hl.1, hl.2, hfalse⟩ hcond
        rw [hq1new, hnq]
  obtain ⟨r, hreq, hrfix, hratt, hrnew⟩ := stage2
  rw [hreq]
  -- Second application: both flags hold on a stripped input, so it is the
  -- identity.
  simp only [append_lookback_to_query]
  rw [hrfix, hratt]
  by_cases hl : lb ≠ 0 ∧ 0 < lb
  · rw [hrnew hl]
    simp
  · simp [hl]
    intro h1 h2
    exact absurd ⟨h1, h2⟩ hl

